import Mathlib

set_option maxRecDepth 1500

/-!
Verification of the fund-NAV email harvester (`emailpush.py`).

This file gives a shallow embedding of the parts of the program the
specification talks about: the LLM response parser `parse_glm`, the attachment
text fallback of `run_processing`, the watermark store
(`get_last_run_datetime` / `save_current_run_datetime`), the output-row
deduplication, and the incremental IMAP fetch filter of `fetch_mail`.

Modelling conventions:
* Python `str` values are lists of Unicode code points (`PyStr := List Nat`),
  so that lone surrogates, which CPython strings may contain, are
  representable.
* Python `bytes` values are lists of byte values (`Bytes := List Nat`).
* Python floats are modelled exactly (`PyNum`): a rational for finite values
  plus the infinities and NaN.  Every numeric literal appearing in the claims
  is exactly representable, and each operation the program performs on these
  numbers (parsing a decimal literal, `str`/`float` round trips, equality
  tests) commutes with the embedding; IEEE rounding and overflow are not
  modelled.
* Fallible operations return `Option`/`Except`; code that catches exceptions
  and substitutes a default value is modelled by the corresponding total
  function.
-/

namespace EmailPush

/-- Python strings as sequences of Unicode code points. -/
abbrev PyStr := List Nat

/-- Code points of a Lean string literal, used to write down concrete Python
strings. -/
def pyS (s : String) : PyStr := s.data.map Char.toNat

/-- The code points Python's `str.strip()` (and `float()`) treat as
whitespace. -/
def isPySpace (c : Nat) : Bool :=
  decide ((9 ≤ c ∧ c ≤ 13) ∨ c = 32 ∨ (28 ≤ c ∧ c ≤ 31) ∨ c = 133 ∨ c = 160 ∨
    c = 0x1680 ∨ (0x2000 ≤ c ∧ c ≤ 0x200A) ∨ c = 0x2028 ∨ c = 0x2029 ∨
    c = 0x202F ∨ c = 0x205F ∨ c = 0x3000)

/-- `s.lstrip()`. -/
def pyStripLeft (s : PyStr) : PyStr := s.dropWhile isPySpace

/-- `s.rstrip()`. -/
def pyStripRight (s : PyStr) : PyStr := (s.reverse.dropWhile isPySpace).reverse

/-- Python `str.strip()`. -/
def pyStrip (s : PyStr) : PyStr := pyStripLeft (pyStripRight s)

/-- `s.startswith(p)`. -/
def pyStartsWith : PyStr → PyStr → Bool
  | _, [] => true
  | [], _ :: _ => false
  | c :: s, d :: p => c == d && pyStartsWith s p

/-- `s.endswith(p)`. -/
def pyEndsWith (s p : PyStr) : Bool := pyStartsWith s.reverse p.reverse

/-- `s.find(ch)` for a single character, `none` standing for `-1`. -/
def pyFind (s : PyStr) (c : Nat) : Option Nat := s.findIdx? (· == c)

/-- A Python float, modelled exactly. -/
inductive PyNum where
  | finite (q : ℚ)
  | infty (pos : Bool)
  | nan
deriving DecidableEq, Repr

/-- ASCII decimal digit test. -/
def isDigit (c : Nat) : Bool := decide (48 ≤ c ∧ c ≤ 57)

/-- Value of a list of ASCII digits. -/
def digitsVal (ds : List Nat) : Nat := ds.foldl (fun a c => a * 10 + (c - 48)) 0

/-- ASCII lower-casing, enough for the case-insensitive `inf`/`nan` match in
`float()`. -/
def toLowerCp (c : Nat) : Nat := if 65 ≤ c ∧ c ≤ 90 then c + 32 else c

/-- Underscores in a Python numeric string must sit directly between two
digits.  The first argument is the previous code point, if any. -/
def underscoresOkAux : Option Nat → PyStr → Bool
  | _, [] => true
  | prev, c :: rest =>
    if c == 95 then
      match prev, rest with
      | some p, n :: _ => isDigit p && isDigit n && underscoresOkAux (some c) rest
      | _, _ => false
    else underscoresOkAux (some c) rest

def underscoresOk (s : PyStr) : Bool := underscoresOkAux none s

/-- Longest digit run at the front of a string. -/
def takeDigits (s : PyStr) : List Nat × PyStr := (s.takeWhile isDigit, s.dropWhile isDigit)

/-- Unsigned decimal mantissa: `digits [. digits]` or `. digits`.  Returns the
value and the unconsumed rest. -/
def parseUnsignedFloat (s : PyStr) : Option (ℚ × PyStr) :=
  let ip := takeDigits s
  match ip.2 with
  | 46 :: r2 =>
    let fp := takeDigits r2
    if ip.1.isEmpty && fp.1.isEmpty then none
    else some ((digitsVal ip.1 : ℚ) + (digitsVal fp.1 : ℚ) / (10 ^ fp.1.length : ℚ), fp.2)
  | _ => if ip.1.isEmpty then none else some ((digitsVal ip.1 : ℚ), ip.2)

/-- Python `float(s)` on a string: strip whitespace, optional sign, then
either a case-insensitive `inf`/`infinity`/`nan` or a decimal literal with
optional exponent; underscores are allowed between digits; the whole string
must be consumed.  Returns `none` where CPython raises `ValueError`. -/
def pyFloat (s0 : PyStr) : Option PyNum :=
  let s1 := pyStrip s0
  let signed : Bool × PyStr :=
    match s1 with
    | 43 :: r => (false, r)
    | 45 :: r => (true, r)
    | _ => (false, s1)
  let neg := signed.1
  let s := signed.2
  let low := s.map toLowerCp
  if low == pyS "inf" || low == pyS "infinity" then some (.infty (!neg))
  else if low == pyS "nan" then some .nan
  else if underscoresOk s then
    let t := s.filter (fun c => !(c == 95))
    match parseUnsignedFloat t with
    | none => none
    | some (m, rest) =>
      match rest with
      | [] => some (.finite (if neg then -m else m))
      | e :: r2 =>
        if e == 101 || e == 69 then
          let esigned : Bool × PyStr :=
            match r2 with
            | 43 :: rr => (false, rr)
            | 45 :: rr => (true, rr)
            | _ => (false, r2)
          let eds := takeDigits esigned.2
          if eds.1.isEmpty || !eds.2.isEmpty then none
          else
            let scale : ℚ :=
              if esigned.1 then 1 / (10 ^ digitsVal eds.1 : ℚ) else (10 ^ digitsVal eds.1 : ℚ)
            some (.finite (if neg then -(m * scale) else m * scale))
        else none
  else none

/-! ## JSON values

`json.loads` produces nested Python lists/dicts/strings/numbers/bools/`None`.
Objects are represented the way a Python `dict` built from parsed key/value
pairs looks: keys are unique, in first-insertion order, and a duplicate key in
the source text overwrites the value in place (`dictInsert`). -/

inductive JValue where
  | null
  | bool (b : Bool)
  | num (v : PyNum)
  | str (s : PyStr)
  | arr (elems : List JValue)
  | obj (entries : List (PyStr × JValue))

mutual
def JValue.decEq : (a b : JValue) → Decidable (a = b)
  | .null, .null => isTrue rfl
  | .null, .bool _ => isFalse (fun h => JValue.noConfusion h)
  | .null, .num _ => isFalse (fun h => JValue.noConfusion h)
  | .null, .str _ => isFalse (fun h => JValue.noConfusion h)
  | .null, .arr _ => isFalse (fun h => JValue.noConfusion h)
  | .null, .obj _ => isFalse (fun h => JValue.noConfusion h)
  | .bool _, .null => isFalse (fun h => JValue.noConfusion h)
  | .bool a, .bool b =>
    if h : a = b then isTrue (by rw [h]) else isFalse (fun hh => h (by cases hh; rfl))
  | .bool _, .num _ => isFalse (fun h => JValue.noConfusion h)
  | .bool _, .str _ => isFalse (fun h => JValue.noConfusion h)
  | .bool _, .arr _ => isFalse (fun h => JValue.noConfusion h)
  | .bool _, .obj _ => isFalse (fun h => JValue.noConfusion h)
  | .num _, .null => isFalse (fun h => JValue.noConfusion h)
  | .num _, .bool _ => isFalse (fun h => JValue.noConfusion h)
  | .num a, .num b =>
    if h : a = b then isTrue (by rw [h]) else isFalse (fun hh => h (by cases hh; rfl))
  | .num _, .str _ => isFalse (fun h => JValue.noConfusion h)
  | .num _, .arr _ => isFalse (fun h => JValue.noConfusion h)
  | .num _, .obj _ => isFalse (fun h => JValue.noConfusion h)
  | .str _, .null => isFalse (fun h => JValue.noConfusion h)
  | .str _, .bool _ => isFalse (fun h => JValue.noConfusion h)
  | .str _, .num _ => isFalse (fun h => JValue.noConfusion h)
  | .str a, .str b =>
    if h : a = b then isTrue (by rw [h]) else isFalse (fun hh => h (by cases hh; rfl))
  | .str _, .arr _ => isFalse (fun h => JValue.noConfusion h)
  | .str _, .obj _ => isFalse (fun h => JValue.noConfusion h)
  | .arr _, .null => isFalse (fun h => JValue.noConfusion h)
  | .arr _, .bool _ => isFalse (fun h => JValue.noConfusion h)
  | .arr _, .num _ => isFalse (fun h => JValue.noConfusion h)
  | .arr _, .str _ => isFalse (fun h => JValue.noConfusion h)
  | .arr a, .arr b =>
    match JValue.decEqList a b with
    | isTrue h => isTrue (by rw [h])
    | isFalse h => isFalse (fun hh => h (by cases hh; rfl))
  | .arr _, .obj _ => isFalse (fun h => JValue.noConfusion h)
  | .obj _, .null => isFalse (fun h => JValue.noConfusion h)
  | .obj _, .bool _ => isFalse (fun h => JValue.noConfusion h)
  | .obj _, .num _ => isFalse (fun h => JValue.noConfusion h)
  | .obj _, .str _ => isFalse (fun h => JValue.noConfusion h)
  | .obj _, .arr _ => isFalse (fun h => JValue.noConfusion h)
  | .obj a, .obj b =>
    match JValue.decEqObj a b with
    | isTrue h => isTrue (by rw [h])
    | isFalse h => isFalse (fun hh => h (by cases hh; rfl))

def JValue.decEqList : (a b : List JValue) → Decidable (a = b)
  | [], [] => isTrue rfl
  | [], _ :: _ => isFalse (fun h => List.noConfusion h)
  | _ :: _, [] => isFalse (fun h => List.noConfusion h)
  | x :: xs, y :: ys =>
    match JValue.decEq x y with
    | isTrue h1 =>
      match JValue.decEqList xs ys with
      | isTrue h2 => isTrue (by rw [h1, h2])
      | isFalse h2 => isFalse (fun hh => h2 (by cases hh; rfl))
    | isFalse h1 => isFalse (fun hh => h1 (by cases hh; rfl))

def JValue.decEqObj : (a b : List (PyStr × JValue)) → Decidable (a = b)
  | [], [] => isTrue rfl
  | [], _ :: _ => isFalse (fun h => List.noConfusion h)
  | _ :: _, [] => isFalse (fun h => List.noConfusion h)
  | (k, v) :: xs, (l, w) :: ys =>
    if hk : k = l then
      match JValue.decEq v w with
      | isTrue h1 =>
        match JValue.decEqObj xs ys with
        | isTrue h2 => isTrue (by rw [hk, h1, h2])
        | isFalse h2 => isFalse (fun hh => h2 (by cases hh; rfl))
      | isFalse h1 => isFalse (fun hh => h1 (by cases hh; rfl))
    else isFalse (fun hh => hk (by cases hh; rfl))
end

instance : DecidableEq JValue := JValue.decEq

/-- `dict` insertion: an existing key keeps its position and gets the new
value; a new key is appended. -/
def dictInsert (kvs : List (PyStr × JValue)) (k : PyStr) (v : JValue) :
    List (PyStr × JValue) :=
  match kvs with
  | [] => [(k, v)]
  | (k0, v0) :: rest =>
    if k0 = k then (k0, v) :: rest else (k0, v0) :: dictInsert rest k v

/-- `d.get(k)` / `d[k]` on a dict with unique keys. -/
def dictGet (kvs : List (PyStr × JValue)) (k : PyStr) : Option JValue :=
  match kvs with
  | [] => none
  | (k0, v0) :: rest => if k0 = k then some v0 else dictGet rest k

/-- `d.keys()`. -/
def dictKeys (kvs : List (PyStr × JValue)) : List PyStr := kvs.map (·.1)

/-! ## The JSON decoder (`json.loads`, strict mode, default hooks) -/

/-- The whitespace the JSON decoder skips (space, tab, newline, return). -/
def isJsonWs (c : Nat) : Bool := c == 32 || c == 9 || c == 10 || c == 13

def skipJsonWs (s : PyStr) : PyStr := s.dropWhile isJsonWs

/-- Hexadecimal digit value. -/
def hexVal (c : Nat) : Option Nat :=
  if 48 ≤ c ∧ c ≤ 57 then some (c - 48)
  else if 97 ≤ c ∧ c ≤ 102 then some (c - 87)
  else if 65 ≤ c ∧ c ≤ 70 then some (c - 55)
  else none

/-- Four hex digits, as in a `\uXXXX` escape. -/
def hex4 : PyStr → Option (Nat × PyStr)
  | a :: b :: c :: d :: r =>
    match hexVal a, hexVal b, hexVal c, hexVal d with
    | some x, some y, some z, some w => some (((x * 16 + y) * 16 + z) * 16 + w, r)
    | _, _, _, _ => none
  | _ => none

/-- Body of a JSON string, after the opening quote (`py_scanstring`, strict):
stops at the closing quote, decodes the standard escapes, combines surrogate
pairs (a lone surrogate stays as-is, as in CPython), and rejects raw control
characters and invalid escapes. -/
def parseJsonStringBody : Nat → PyStr → PyStr → Option (PyStr × PyStr)
  | 0, _, _ => none
  | _ + 1, [], _ => none
  | f + 1, c :: rest, acc =>
    if c == 34 then some (acc.reverse, rest)
    else if c == 92 then
      match rest with
      | [] => none
      | e :: r2 =>
        if e == 34 then parseJsonStringBody f r2 (34 :: acc)
        else if e == 92 then parseJsonStringBody f r2 (92 :: acc)
        else if e == 47 then parseJsonStringBody f r2 (47 :: acc)
        else if e == 98 then parseJsonStringBody f r2 (8 :: acc)
        else if e == 102 then parseJsonStringBody f r2 (12 :: acc)
        else if e == 110 then parseJsonStringBody f r2 (10 :: acc)
        else if e == 114 then parseJsonStringBody f r2 (13 :: acc)
        else if e == 116 then parseJsonStringBody f r2 (9 :: acc)
        else if e == 117 then
          match hex4 r2 with
          | none => none
          | some (u, r3) =>
            if 0xD800 ≤ u ∧ u ≤ 0xDBFF then
              match r3 with
              | 92 :: 117 :: r4 =>
                match hex4 r4 with
                | none => none
                | some (u2, r5) =>
                  if 0xDC00 ≤ u2 ∧ u2 ≤ 0xDFFF then
                    parseJsonStringBody f r5
                      ((0x10000 + (u - 0xD800) * 0x400 + (u2 - 0xDC00)) :: acc)
                  else parseJsonStringBody f r3 (u :: acc)
              | _ => parseJsonStringBody f r3 (u :: acc)
            else parseJsonStringBody f r3 (u :: acc)
        else none
    else if c < 32 then none
    else parseJsonStringBody f rest (c :: acc)

/-- JSON number token `-?(0|[1-9][0-9]*)([.][0-9]+)?([eE][+-]?[0-9]+)?`,
greedy in each component, leaving the unconsumed rest (as `NUMBER_RE.match`
does). -/
def parseJsonNumber (s : PyStr) : Option (PyNum × PyStr) :=
  let signed : Bool × PyStr :=
    match s with
    | 45 :: r => (true, r)
    | _ => (false, s)
  let intPart : Option (Nat × PyStr) :=
    match signed.2 with
    | 48 :: r => some (0, r)
    | c :: r => if isDigit c then some (digitsVal (c :: (takeDigits r).1), (takeDigits r).2) else none
    | [] => none
  match intPart with
  | none => none
  | some (iv, r1) =>
    let fracPart : ℚ × PyStr :=
      match r1 with
      | 46 :: r2 =>
        let ds := takeDigits r2
        if ds.1.isEmpty then (0, r1)
        else ((digitsVal ds.1 : ℚ) / (10 ^ ds.1.length : ℚ), ds.2)
      | _ => (0, r1)
    let expPart : ℚ × PyStr :=
      match fracPart.2 with
      | e :: r3 =>
        if e == 101 || e == 69 then
          let esigned : Bool × PyStr :=
            match r3 with
            | 43 :: rr => (false, rr)
            | 45 :: rr => (true, rr)
            | _ => (false, r3)
          let ds := takeDigits esigned.2
          if ds.1.isEmpty then (1, fracPart.2)
          else if esigned.1 then (1 / (10 ^ digitsVal ds.1 : ℚ), ds.2)
          else ((10 ^ digitsVal ds.1 : ℚ), ds.2)
        else (1, fracPart.2)
      | [] => (1, fracPart.2)
    let mag : ℚ := ((iv : ℚ) + fracPart.1) * expPart.1
    some (.finite (if signed.1 then -mag else mag), expPart.2)

mutual
/-- One JSON value (`scan_once`): dispatch on the first character. -/
def parseJsonValue : Nat → PyStr → Option (JValue × PyStr)
  | 0, _ => none
  | _ + 1, [] => none
  | f + 1, c :: rest =>
    if c == 34 then
      match parseJsonStringBody (rest.length + 1) rest [] with
      | none => none
      | some (cs, r) => some (.str cs, r)
    else if c == 123 then parseJsonObjBody f (skipJsonWs rest)
    else if c == 91 then parseJsonArrBody f (skipJsonWs rest)
    else if pyStartsWith (c :: rest) (pyS "null") then some (.null, (c :: rest).drop 4)
    else if pyStartsWith (c :: rest) (pyS "true") then some (.bool true, (c :: rest).drop 4)
    else if pyStartsWith (c :: rest) (pyS "false") then some (.bool false, (c :: rest).drop 5)
    else
      match parseJsonNumber (c :: rest) with
      | some (v, r) => some (.num v, r)
      | none =>
        if pyStartsWith (c :: rest) (pyS "NaN") then some (.num .nan, (c :: rest).drop 3)
        else if pyStartsWith (c :: rest) (pyS "Infinity") then
          some (.num (.infty true), (c :: rest).drop 8)
        else if pyStartsWith (c :: rest) (pyS "-Infinity") then
          some (.num (.infty false), (c :: rest).drop 9)
        else none

/-- Array body after `[` and whitespace. -/
def parseJsonArrBody : Nat → PyStr → Option (JValue × PyStr)
  | 0, _ => none
  | f + 1, s =>
    match s with
    | 93 :: r => some (.arr [], r)
    | _ => parseJsonArrLoop f s []

/-- Array elements, accumulated in reverse. -/
def parseJsonArrLoop : Nat → PyStr → List JValue → Option (JValue × PyStr)
  | 0, _, _ => none
  | f + 1, s, acc =>
    match parseJsonValue f s with
    | none => none
    | some (v, r1) =>
      match skipJsonWs r1 with
      | 93 :: r2 => some (.arr (v :: acc).reverse, r2)
      | 44 :: r2 => parseJsonArrLoop f (skipJsonWs r2) (v :: acc)
      | _ => none

/-- Object body after `{` and whitespace. -/
def parseJsonObjBody : Nat → PyStr → Option (JValue × PyStr)
  | 0, _ => none
  | f + 1, s =>
    match s with
    | 125 :: r => some (.obj [], r)
    | _ => parseJsonObjLoop f s []

/-- Object members; entries land in a Python-`dict`-like association list via
`dictInsert`. -/
def parseJsonObjLoop : Nat → PyStr → List (PyStr × JValue) → Option (JValue × PyStr)
  | 0, _, _ => none
  | f + 1, s, acc =>
    match s with
    | 34 :: r0 =>
      match parseJsonStringBody (r0.length + 1) r0 [] with
      | none => none
      | some (k, r1) =>
        match skipJsonWs r1 with
        | 58 :: r2 =>
          match parseJsonValue f (skipJsonWs r2) with
          | none => none
          | some (v, r3) =>
            match skipJsonWs r3 with
            | 125 :: r4 => some (.obj (dictInsert acc k v), r4)
            | 44 :: r4 => parseJsonObjLoop f (skipJsonWs r4) (dictInsert acc k v)
            | _ => none
        | _ => none
    | _ => none
end

/-- Python `json.loads`: decode one JSON value and require only whitespace
after it.  `none` where CPython raises `json.JSONDecodeError` (or exhausts the
recursion limit, modelled by the fuel). -/
def json_loads (s : PyStr) : Option JValue :=
  match parseJsonValue (4 * s.length + 8) (skipJsonWs s) with
  | none => none
  | some (v, rest) => if skipJsonWs rest = [] then some v else none

/-! ## The response parser `parse_glm` (lines 269-329) -/

/-- The five required field names. -/
def expectedKeys : List PyStr :=
  [pyS "日期", pyS "基金名称", pyS "基金代码", pyS "单位净值", pyS "累计净值"]

def unitNavKey : PyStr := pyS "单位净值"

def cumNavKey : PyStr := pyS "累计净值"

/-- `float(str(x).replace(',',''))` on a non-`None` parsed JSON value `x`:
for a string, commas are removed and `float` applied; numbers round-trip
exactly through `repr` (whose image never contains a comma); the `str` image
of a list, dict or boolean contains brackets, braces or letters and never
reads back as a float, so those raise `ValueError`. -/
def coerceNavValue : JValue → Option PyNum
  | .num v => some v
  | .str s => pyFloat (s.filter (fun c => !(c == 44)))
  | _ => none

/-- The field update `item[k] = float(str(item[k]).replace(',','')) if
item.get(k) is not None else None` (lines 313-314): a JSON `null` passes
through as `None`; any other value must coerce, and `none` models the
`ValueError`/`TypeError` that skips the record. -/
def navCoerce : JValue → Option (Option PyNum)
  | .null => some none
  | v => (coerceNavValue v).map some

/-- A record returned by `parse_glm`: the candidate dict together with its two
mutated NAV fields. -/
structure ParsedItem where
  fields : List (PyStr × JValue)
  unitNav : Option PyNum
  cumNav : Option PyNum
deriving DecidableEq

/-- The per-candidate validation of the `for item in items_to_process` loop
(lines 309-321): non-dict items and dicts missing one of the five expected
keys are skipped, as is any dict whose NAV fields fail the float coercion. -/
def processItem : JValue → Option ParsedItem
  | .obj kvs =>
    if expectedKeys.all (fun k => (dictKeys kvs).contains k) then
      match dictGet kvs unitNavKey, dictGet kvs cumNavKey with
      | some uv, some cv =>
        match navCoerce uv, navCoerce cv with
        | some u, some c => some ⟨kvs, u, c⟩
        | _, _ => none
      | _, _ => none
    else none
  | _ => none

/-- `data if isinstance(data, list) else [data] if isinstance(data, dict)
else []` (line 305). -/
def itemsToProcess : JValue → List JValue
  | .arr xs => xs
  | .obj kvs => [.obj kvs]
  | _ => []

/-- Steps 6-7 of the parser: normalize the decoded value to a candidate list
and keep the records that validate, in encounter order. -/
def parse_glm_records (data : JValue) : List ParsedItem :=
  (itemsToProcess data).filterMap processItem

/-- Lines 272-281: index of the first `{` or `[`, combined exactly as the code
combines the two `find` results (`none` standing for `-1`). -/
def jsonStartIndex (s : PyStr) : Option Nat :=
  match pyFind s 123, pyFind s 91 with
  | some b, some k => some (min b k)
  | some b, none => some b
  | none, some k => some k
  | none, none => none

/-- Lines 291-296: strip a leading code fence (with optional language tag) and
a trailing one, re-stripping whitespace after each removal. -/
def stripFences (s : PyStr) : PyStr :=
  let s1 :=
    if pyStartsWith s (pyS "```json") then pyStrip (s.drop 7)
    else if pyStartsWith s (pyS "```") then pyStrip (s.drop 3)
    else s
  if pyEndsWith s1 (pyS "```") then pyStrip (s1.take (s1.length - 3)) else s1

/-- The preprocessing of `parse_glm` before `json.loads`: strip, jump to the
first JSON start character (`none` when there is none, line 287), strip code
fences.  Slicing at index `0` is the identity, so the `json_start_index > 0`
guard needs no separate case. -/
def cleanedText (txt : PyStr) : Option PyStr :=
  let c := pyStrip txt
  match jsonStartIndex c with
  | none => none
  | some i => some (stripFences (c.drop i))

/-- `parse_glm` (lines 269-329): every `except` path returns `[]`. -/
def parse_glm (txt : PyStr) : List ParsedItem :=
  match cleanedText txt with
  | none => []
  | some c =>
    if c.isEmpty then []
    else
      match json_loads c with
      | none => []
      | some data => parse_glm_records data

/-! ## Attachment text fallback (`run_processing`, lines 398-411) -/

/-- Python `bytes` as a list of byte values. -/
abbrev Bytes := List Nat

/-- First-continuation lower bound for a UTF-8 lead byte (RFC 3629 ranges,
as CPython's decoder enforces them). -/
def utf8Cont1Lo (b : Nat) : Nat := if b = 0xE0 then 0xA0 else if b = 0xF0 then 0x90 else 0x80

/-- First-continuation upper bound for a UTF-8 lead byte. -/
def utf8Cont1Hi (b : Nat) : Nat := if b = 0xED then 0x9F else if b = 0xF4 then 0x8F else 0xBF

/-- UTF-8 decoding with the `ignore` error handler: invalid sequences are
skipped following the maximal-subpart convention (the lead byte together with
the valid continuation bytes already read form the ignored range), which is
what CPython implements.  The fuel only certifies termination; every
recursive call consumes at least one byte, so `length + 1` never runs out. -/
def utf8DecodeIgnoreFuel : Nat → Bytes → PyStr
  | 0, _ => []
  | _ + 1, [] => []
  | f + 1, b :: rest =>
    if b < 0x80 then b :: utf8DecodeIgnoreFuel f rest
    else if 0xC2 ≤ b ∧ b ≤ 0xDF then
      match rest with
      | b1 :: r1 =>
        if 0x80 ≤ b1 ∧ b1 ≤ 0xBF then
          ((b - 0xC0) * 64 + (b1 - 0x80)) :: utf8DecodeIgnoreFuel f r1
        else utf8DecodeIgnoreFuel f rest
      | [] => []
    else if 0xE0 ≤ b ∧ b ≤ 0xEF then
      match rest with
      | b1 :: r1 =>
        if utf8Cont1Lo b ≤ b1 ∧ b1 ≤ utf8Cont1Hi b then
          match r1 with
          | b2 :: r2 =>
            if 0x80 ≤ b2 ∧ b2 ≤ 0xBF then
              ((b - 0xE0) * 4096 + (b1 - 0x80) * 64 + (b2 - 0x80)) :: utf8DecodeIgnoreFuel f r2
            else utf8DecodeIgnoreFuel f r1
          | [] => []
        else utf8DecodeIgnoreFuel f rest
      | [] => []
    else if 0xF0 ≤ b ∧ b ≤ 0xF4 then
      match rest with
      | b1 :: r1 =>
        if utf8Cont1Lo b ≤ b1 ∧ b1 ≤ utf8Cont1Hi b then
          match r1 with
          | b2 :: r2 =>
            if 0x80 ≤ b2 ∧ b2 ≤ 0xBF then
              match r2 with
              | b3 :: r3 =>
                if 0x80 ≤ b3 ∧ b3 ≤ 0xBF then
                  ((b - 0xF0) * 0x40000 + (b1 - 0x80) * 4096 + (b2 - 0x80) * 64 + (b3 - 0x80)) ::
                    utf8DecodeIgnoreFuel f r3
                else utf8DecodeIgnoreFuel f r2
              | [] => []
            else utf8DecodeIgnoreFuel f r1
          | [] => []
        else utf8DecodeIgnoreFuel f rest
      | [] => []
    else utf8DecodeIgnoreFuel f rest

def utf8DecodeIgnore (bs : Bytes) : PyStr := utf8DecodeIgnoreFuel (bs.length + 1) bs

/-- The exception classes distinguished by the two `except` clauses of the
fallback chain. -/
inductive PyDecodeErr where
  | unicodeDecodeError
  | otherError

/-- `blob.decode("utf-8", "ignore")` as the Python runtime evaluates it: the
`ignore` error handler drops malformed byte ranges and can never raise, so
the call always returns normally. -/
def utf8DecodeIgnoreExc (blob : Bytes) : Except PyDecodeErr PyStr :=
  .ok (utf8DecodeIgnore blob)

/-- The sentinel `"(二进制文件或无法识别编码)"` of line 411. -/
def binarySentinel : PyStr := pyS "(二进制文件或无法识别编码)"

/-- The text fallback of `run_processing` (lines 405-411), entered when the
spreadsheet decode raised: try `blob.decode("utf-8", "ignore")`; on
`UnicodeDecodeError` use the GBK decoding, on any other exception the binary
sentinel.  The GBK decoder is a parameter so the theorem can show it is never
consulted, whatever it would compute. -/
def attachTextFallback (gbk : Bytes → PyStr) (blob : Bytes) : PyStr :=
  match utf8DecodeIgnoreExc blob with
  | .ok t => t
  | .error .unicodeDecodeError => gbk blob
  | .error .otherError => binarySentinel

/-! ## Watermark store (lines 69-94) -/

/-- A UTC `datetime` value to microsecond precision (the precision of
`datetime.now(timezone.utc)`); the zone is always UTC here, so it is not
carried. -/
structure PyDateTime where
  year : Nat
  month : Nat
  day : Nat
  hour : Nat
  minute : Nat
  second : Nat
  microsecond : Nat
deriving DecidableEq

/-- Zero-padded two-digit `strftime` field. -/
def twoDigits (n : Nat) : PyStr := [48 + n / 10, 48 + n % 10]

/-- Zero-padded four-digit `strftime` field. -/
def fourDigits (n : Nat) : PyStr :=
  [48 + n / 1000, 48 + n / 100 % 10, 48 + n / 10 % 10, 48 + n % 10]

/-- `now_utc.strftime("%Y-%m-%d %H:%M:%S")` — the file content written by
`save_current_run_datetime` (line 90); the format has no microsecond field,
so sub-second precision is dropped. -/
def save_current_run_datetime (now : PyDateTime) : PyStr :=
  fourDigits now.year ++ 45 :: (twoDigits now.month ++ 45 :: (twoDigits now.day ++
    32 :: (twoDigits now.hour ++ 58 :: (twoDigits now.minute ++ 58 :: twoDigits now.second))))

/-- `%Y`: exactly four digits. -/
def parse4Digits : PyStr → Option (Nat × PyStr)
  | a :: b :: c :: d :: r =>
    if isDigit a ∧ isDigit b ∧ isDigit c ∧ isDigit d then
      some ((((a - 48) * 10 + (b - 48)) * 10 + (c - 48)) * 10 + (d - 48), r)
    else none
  | _ => none

/-- A literal code point in the format. -/
def expectCp (c : Nat) : PyStr → Option PyStr
  | d :: r => if d = c then some r else none
  | [] => none

/-- `%m`: regex `1[0-2]|0[1-9]|[1-9]`.  Committed alternation is equivalent
to the regex here because after a shorter alternative the next pattern token
is a literal or whitespace, which a digit can never satisfy. -/
def matchMonth : PyStr → Option (Nat × PyStr)
  | c1 :: c2 :: r =>
    if c1 = 49 ∧ 48 ≤ c2 ∧ c2 ≤ 50 then some (10 + (c2 - 48), r)
    else if c1 = 48 ∧ 49 ≤ c2 ∧ c2 ≤ 57 then some (c2 - 48, r)
    else if 49 ≤ c1 ∧ c1 ≤ 57 then some (c1 - 48, c2 :: r)
    else none
  | [c1] => if 49 ≤ c1 ∧ c1 ≤ 57 then some (c1 - 48, []) else none
  | [] => none

/-- `%d`: regex `3[01]|[12][0-9]|0[1-9]|[1-9]`. -/
def matchDay : PyStr → Option (Nat × PyStr)
  | c1 :: c2 :: r =>
    if c1 = 51 ∧ (c2 = 48 ∨ c2 = 49) then some (30 + (c2 - 48), r)
    else if (c1 = 49 ∨ c1 = 50) ∧ isDigit c2 then some ((c1 - 48) * 10 + (c2 - 48), r)
    else if c1 = 48 ∧ 49 ≤ c2 ∧ c2 ≤ 57 then some (c2 - 48, r)
    else if 49 ≤ c1 ∧ c1 ≤ 57 then some (c1 - 48, c2 :: r)
    else none
  | [c1] => if 49 ≤ c1 ∧ c1 ≤ 57 then some (c1 - 48, []) else none
  | [] => none

/-- `%H`: regex `2[0-3]|[0-1][0-9]|[0-9]`. -/
def matchHour : PyStr → Option (Nat × PyStr)
  | c1 :: c2 :: r =>
    if c1 = 50 ∧ 48 ≤ c2 ∧ c2 ≤ 51 then some (20 + (c2 - 48), r)
    else if (c1 = 48 ∨ c1 = 49) ∧ isDigit c2 then some ((c1 - 48) * 10 + (c2 - 48), r)
    else if isDigit c1 then some (c1 - 48, c2 :: r)
    else none
  | [c1] => if isDigit c1 then some (c1 - 48, []) else none
  | [] => none

/-- `%M`: regex `[0-5][0-9]|[0-9]`. -/
def matchMinute : PyStr → Option (Nat × PyStr)
  | c1 :: c2 :: r =>
    if 48 ≤ c1 ∧ c1 ≤ 53 ∧ isDigit c2 then some ((c1 - 48) * 10 + (c2 - 48), r)
    else if isDigit c1 then some (c1 - 48, c2 :: r)
    else none
  | [c1] => if isDigit c1 then some (c1 - 48, []) else none
  | [] => none

/-- `%S`: regex `6[01]|[0-5][0-9]|[0-9]` (the regex admits leap seconds,
which the `datetime` constructor then rejects). -/
def matchSec : PyStr → Option (Nat × PyStr)
  | c1 :: c2 :: r =>
    if c1 = 54 ∧ (c2 = 48 ∨ c2 = 49) then some (60 + (c2 - 48), r)
    else if 48 ≤ c1 ∧ c1 ≤ 53 ∧ isDigit c2 then some ((c1 - 48) * 10 + (c2 - 48), r)
    else if isDigit c1 then some (c1 - 48, c2 :: r)
    else none
  | [c1] => if isDigit c1 then some (c1 - 48, []) else none
  | [] => none

/-- A whitespace run in the format becomes `\s+`. -/
def matchWs1 : PyStr → Option PyStr
  | c :: r => if isPySpace c then some (r.dropWhile isPySpace) else none
  | [] => none

def isLeapYear (y : Nat) : Bool := (y % 4 == 0 && y % 100 != 0) || y % 400 == 0

def daysInMonth (y m : Nat) : Nat :=
  if m = 2 then (if isLeapYear y then 29 else 28)
  else if m = 4 ∨ m = 6 ∨ m = 9 ∨ m = 11 then 30
  else 31

/-- `datetime.strptime(content, "%Y-%m-%d %H:%M:%S")`: the regex `_strptime`
builds for this format (four-digit year, one-or-two-digit bounded fields,
`\s+` for the literal space, full-string match), followed by the `datetime`
constructor's range validation.  `none` models the `ValueError`. -/
def strptimeYmdHms (s : PyStr) : Option PyDateTime :=
  (parse4Digits s).bind fun yr =>
    (expectCp 45 yr.2).bind fun r2 =>
      (matchMonth r2).bind fun mr =>
        (expectCp 45 mr.2).bind fun r4 =>
          (matchDay r4).bind fun dr =>
            (matchWs1 dr.2).bind fun r6 =>
              (matchHour r6).bind fun hr =>
                (expectCp 58 hr.2).bind fun r8 =>
                  (matchMinute r8).bind fun mir =>
                    (expectCp 58 mir.2).bind fun r10 =>
                      (matchSec r10).bind fun sr =>
                        if sr.2 = [] ∧ 1 ≤ yr.1 ∧ dr.1 ≤ daysInMonth yr.1 mr.1 ∧ sr.1 ≤ 59 then
                          some ⟨yr.1, mr.1, dr.1, hr.1, mir.1, sr.1, 0⟩
                        else none

/-- `get_last_run_datetime` (lines 69-84) as a function of the watermark file
content: the content is stripped, empty content gives `None`, and the
`ValueError` a malformed content raises in `strptime` is caught and turned
into `None`.  The result is interpreted as UTC (line 79), which is the only
zone in this model. -/
def get_last_run_datetime (content : PyStr) : Option PyDateTime :=
  let c := pyStrip content
  if c = [] then none
  else strptimeYmdHms c

/-- Dropping sub-second precision, which is what the watermark format keeps. -/
def truncateToSecond (t : PyDateTime) : PyDateTime :=
  ⟨t.year, t.month, t.day, t.hour, t.minute, t.second, 0⟩

/-- Field ranges of a real `datetime` value (year bounded to four digits, as
any value produced by `datetime.now` is). -/
abbrev ValidDateTime (t : PyDateTime) : Prop :=
  1000 ≤ t.year ∧ t.year ≤ 9999 ∧ 1 ≤ t.month ∧ t.month ≤ 12 ∧
  1 ≤ t.day ∧ t.day ≤ daysInMonth t.year t.month ∧
  t.hour ≤ 23 ∧ t.minute ≤ 59 ∧ t.second ≤ 59

/-! ## Output rows, deduplication, and the run skeleton -/

/-- One output row: the five record columns plus the three provenance columns
(`COLS`, lines 49-50), exactly the eight columns `pd.DataFrame(rows,
columns=COLS)` keeps. -/
structure OutputRow where
  riqi : JValue
  fundName : JValue
  fundCode : JValue
  unitNav : Option PyNum
  cumNav : Option PyNum
  sourceSubject : PyStr
  senderAddress : PyStr
  senderDisplay : PyStr
deriving DecidableEq

/-- Python hashability of a parsed JSON value: lists and dicts are
unhashable; `None`, booleans, numbers and strings are hashable. -/
def jvalueHashable : JValue → Bool
  | .arr _ => false
  | .obj _ => false
  | _ => true

/-- Whether every cell of an output row is hashable.  The two NAV columns are
always floats or `None` and the three provenance columns are strings, so only
the three JSON-valued columns (`日期`, `基金名称`, `基金代码`) can carry an
unhashable list or dict that `parse_glm` passed through. -/
def rowHashable (r : OutputRow) : Bool :=
  jvalueHashable r.riqi && jvalueHashable r.fundName && jvalueHashable r.fundCode

def dropDupAux {α : Type} [DecidableEq α] (seen : List α) : List α → List α
  | [] => []
  | r :: rs => if r ∈ seen then dropDupAux seen rs else r :: dropDupAux (r :: seen) rs

/-- `df.drop_duplicates(inplace=True)` with the default `keep="first"` (line
487): a row equal to an earlier row in all columns is dropped; first
occurrences stay, in order. -/
def drop_duplicates {α : Type} [DecidableEq α] (l : List α) : List α := dropDupAux [] l

/-- The externally visible effects of `run_processing` that the claims track. -/
inductive RunStep where
  | saveWatermark
  | writeExcel
  | writeFallbackExcel
deriving DecidableEq

/-- How the fetch/extract main loop ends: a connectivity failure
(`IMAPClient.Abort` / `ConnectionResetError`), any other exception, or normal
completion with the server hit count, the number of messages iterated, and
the collected rows. -/
inductive MainLoopOutcome where
  | imapConnectionError
  | unexpectedError
  | completed (emailsFoundServer : Nat) (processedCount : Nat) (rows : List OutputRow)

/-- Control-flow skeleton of `run_processing` (lines 331-517), recording the
effect trace.  The two `except` arms (450-461) save the watermark and return,
and every early `return` for an empty run (465-484) saves.  But the
aggregation on lines 486-487 — `pd.DataFrame(rows, columns=COLS)` followed by
`df.drop_duplicates(inplace=True)` — runs outside any `try`: when some
collected row holds an unhashable cell value (a JSON list or dict that
`parse_glm` passed through), `drop_duplicates` raises `TypeError`, the
exception propagates out of `run_processing`, and the run terminates with no
further effect — in particular without the watermark save.  When all rows are
hashable, the dedup and the `df.empty` return (490-493) save, and the Excel
write (497-514) catches its own failure and falls through to the save on line
516. -/
def run_processing (outcome : MainLoopOutcome) (excelWriteOk : Bool) : List RunStep :=
  match outcome with
  | .imapConnectionError => [.saveWatermark]
  | .unexpectedError => [.saveWatermark]
  | .completed found count rows =>
    if count = 0 ∧ ¬ 0 < found then [.saveWatermark]
    else if count = 0 ∧ 0 < found then [.saveWatermark]
    else if rows = [] then [.saveWatermark]
    else if rows.all rowHashable then
      if drop_duplicates rows = [] then [.saveWatermark]
      else if excelWriteOk then [.writeExcel, .saveWatermark]
      else [.writeExcel, .writeFallbackExcel, .saveWatermark]
    else []

/-! ## Incremental fetch filter (`fetch_mail`, lines 96-189) -/

/-- A message as the IMAP round trip presents it: the day the server indexes
it under for `SINCE`, the `INTERNALDATE` returned by `FETCH` (absent when the
server omits it, line 163), and whether the `RFC822` body came back (line
157).  Instants are seconds since the epoch, UTC. -/
structure FetchedMsg where
  uid : Nat
  serverDay : Nat
  internalDate : Option Nat
  hasRfc822 : Bool
deriving DecidableEq

/-- Calendar day of an instant. -/
def dayOfTimestamp (t : Nat) : Nat := t / 86400

/-- The server-side `SINCE` search (lines 111-126): messages whose internal
date falls on or after the given day. -/
def serverSinceSearch (sinceDay : Nat) (msgs : List FetchedMsg) : List FetchedMsg :=
  msgs.filter fun m => decide (sinceDay ≤ m.serverDay)

/-- The client-side incremental filter (lines 161-174): skip a message whose
`INTERNALDATE` is at or before the watermark; a message without an
`INTERNALDATE` is only warned about and falls through to the `yield`. -/
def clientKeep (lastRun : Nat) (m : FetchedMsg) : Bool :=
  match m.internalDate with
  | some d => decide (lastRun < d)
  | none => true

/-- `fetch_mail` in incremental mode (`last_run_utc_dt` present): the server
search uses only the watermark's calendar day (line 114), messages without a
fetched body are skipped (line 157), and the client filter above decides the
rest. -/
def fetch_mail_incremental (lastRun : Nat) (msgs : List FetchedMsg) : List FetchedMsg :=
  (serverSinceSearch (dayOfTimestamp lastRun) msgs).filter
    fun m => m.hasRfc822 && clientKeep lastRun m

/-! ## Concrete inputs from the specification's testable properties -/

/-- The spec's example response: prose followed by a JSON array. -/
def c2Prose : PyStr := pyS "here is the data: "

def c2Json : PyStr :=
  pyS "[\x7b\"日期\":\"2025-05-01\",\"基金名称\":\"A\",\"基金代码\":\"X1\",\"单位净值\":\"1,000.50\",\"累计净值\":\"1.20\"\x7d]"

def c2Input : PyStr := c2Prose ++ c2Json

/-- The entries of the one candidate object in `c2Json`, in source order. -/
def c2Entries : List (PyStr × JValue) :=
  [(pyS "日期", .str (pyS "2025-05-01")), (pyS "基金名称", .str (pyS "A")),
   (pyS "基金代码", .str (pyS "X1")), (pyS "单位净值", .str (pyS "1,000.50")),
   (pyS "累计净值", .str (pyS "1.20"))]

/-- The decoded JSON value of `c2Json`. -/
def c2Value : JValue := .arr [.obj c2Entries]

/-- The record `parse_glm` extracts from `c2Input`. -/
def c2Record : ParsedItem := ⟨c2Entries, some (.finite (2001 / 2)), some (.finite (6 / 5))⟩

/-- A response whose single candidate has a JSON `null` NAV value. -/
def c1CexInput : PyStr :=
  pyS "[\x7b\"日期\":\"d\",\"基金名称\":\"n\",\"基金代码\":\"c\",\"单位净值\":null,\"累计净值\":\"1.0\"\x7d]"

/-- A response with one valid candidate and one candidate missing the
`累计净值` key. -/
def c4Input : PyStr :=
  pyS "[\x7b\"日期\":\"2025-05-01\",\"基金名称\":\"A\",\"基金代码\":\"X1\",\"单位净值\":\"1.5\",\"累计净值\":\"2.5\"\x7d,\x7b\"日期\":\"2025-05-01\",\"基金名称\":\"B\",\"基金代码\":\"X2\",\"单位净值\":\"1.5\"\x7d]"

def c4Obj1 : List (PyStr × JValue) :=
  [(pyS "日期", .str (pyS "2025-05-01")), (pyS "基金名称", .str (pyS "A")),
   (pyS "基金代码", .str (pyS "X1")), (pyS "单位净值", .str (pyS "1.5")),
   (pyS "累计净值", .str (pyS "2.5"))]

def c4Obj2 : List (PyStr × JValue) :=
  [(pyS "日期", .str (pyS "2025-05-01")), (pyS "基金名称", .str (pyS "B")),
   (pyS "基金代码", .str (pyS "X2")), (pyS "单位净值", .str (pyS "1.5"))]

/-- The decoded JSON array of `c4Input`. -/
def c4Elems : List JValue := [.obj c4Obj1, .obj c4Obj2]

/-- The single valid record of `c4Input`. -/
def c4Record : ParsedItem := ⟨c4Obj1, some (.finite (3 / 2)), some (.finite (5 / 2))⟩

/-- A response whose single candidate has a JSON array as its `日期` value:
`parse_glm` only checks key presence and NAV coercibility, so the record is
accepted and its `日期` cell becomes an unhashable Python list. -/
def c7CexInput : PyStr :=
  pyS "[\x7b\"日期\":[\"x\"],\"基金名称\":\"n\",\"基金代码\":\"c\",\"单位净值\":\"1.0\",\"累计净值\":\"1.0\"\x7d]"

/-- The output row such a record is widened into: its `日期` cell is a list,
so `df.drop_duplicates` raises `TypeError` on it. -/
def badRow : OutputRow :=
  ⟨.arr [.str (pyS "x")], .str (pyS "n"), .str (pyS "c"),
   some (.finite 1), some (.finite 1), [], [], []⟩

/-- A concrete output row, for the deduplication witnesses. -/
def row0 : OutputRow := ⟨.null, .null, .null, some (.finite 1), none, [], [], []⟩

/-- `row0` with only the `单位净值` column changed. -/
def row1 : OutputRow := ⟨.null, .null, .null, none, none, [], [], []⟩

/-! ## Facts about the preprocessing pipeline -/

theorem pyStripLeft_append (p t : PyStr) (c : Nat) (h : isPySpace c = false) :
    pyStripLeft (p ++ c :: t) = pyStripLeft p ++ c :: t := by
  induction p with
  | nil => simp [pyStripLeft, List.dropWhile_cons, h]
  | cons a p ih =>
    by_cases ha : isPySpace a
    · simpa [pyStripLeft, List.dropWhile_cons, ha] using ih
    · simp [pyStripLeft, List.dropWhile_cons, ha]

theorem pyStripRight_eq_self (s : PyStr) (h : s.getLast?.all (fun c => !isPySpace c)) :
    pyStripRight s = s := by
  unfold pyStripRight
  cases hr : s.reverse with
  | nil =>
    rw [List.reverse_eq_nil_iff] at hr
    subst hr; rfl
  | cons c t =>
    have hc : s.getLast? = some c := by
      rw [← List.head?_reverse, hr]; rfl
    rw [hc] at h
    simp only [Option.all_some, Bool.not_eq_true'] at h
    rw [List.dropWhile_cons, h]
    have hs := congrArg List.reverse hr
    rw [List.reverse_reverse] at hs
    exact hs.symm

theorem mem_pyStrip {a : Nat} {s : PyStr} (h : a ∈ pyStrip s) : a ∈ s := by
  unfold pyStrip pyStripLeft pyStripRight at h
  have h1 := (List.dropWhile_sublist _).mem h
  rw [List.mem_reverse] at h1
  have h2 := (List.dropWhile_sublist _).mem h1
  rwa [List.mem_reverse] at h2

theorem pyFind_cons (a : Nat) (s : PyStr) (c : Nat) :
    pyFind (a :: s) c = if a = c then some 0 else (pyFind s c).map (· + 1) := by
  unfold pyFind
  rw [List.findIdx?_cons]
  by_cases h : a = c
  · subst h; simp
  · simp [h]

theorem jsonStartIndex_cons (a : Nat) (s : PyStr) :
    jsonStartIndex (a :: s) =
      if a = 123 ∨ a = 91 then some 0 else (jsonStartIndex s).map (· + 1) := by
  unfold jsonStartIndex
  rw [pyFind_cons, pyFind_cons]
  by_cases h1 : a = 123
  · rw [if_pos h1, if_neg (by omega : ¬a = 91), if_pos (Or.inl h1)]
    cases hk : pyFind s 91 <;> simp
  · rw [if_neg h1]
    by_cases h2 : a = 91
    · rw [if_pos h2, if_pos (Or.inr h2)]
      cases hb : pyFind s 123 <;> simp
    · rw [if_neg h2, if_neg (by tauto)]
      cases hb : pyFind s 123 <;> cases hk : pyFind s 91 <;>
        simp [Nat.succ_min_succ]

theorem jsonStartIndex_eq_none {s : PyStr} (h : ∀ a ∈ s, a ≠ 123 ∧ a ≠ 91) :
    jsonStartIndex s = none := by
  induction s with
  | nil => rfl
  | cons a t ih =>
    rw [jsonStartIndex_cons, if_neg, ih fun b hb => h b (List.mem_cons_of_mem a hb)]
    · rfl
    · have := h a (List.mem_cons_self a t)
      tauto

theorem jsonStartIndex_append (q t : PyStr) (c : Nat)
    (hq : ∀ a ∈ q, a ≠ 123 ∧ a ≠ 91) (hc : c = 123 ∨ c = 91) :
    jsonStartIndex (q ++ c :: t) = some q.length := by
  induction q with
  | nil => rw [List.nil_append, jsonStartIndex_cons, if_pos hc]; rfl
  | cons a q ih =>
    rw [List.cons_append, jsonStartIndex_cons, if_neg, ih]
    · simp
    · exact fun b hb => hq b (List.mem_cons_of_mem a hb)
    · have := hq a (List.mem_cons_self a _)
      tauto

theorem stripFences_eq_self (c : Nat) (t : PyStr) (hc : c = 123 ∨ c = 91)
    (hl : (c :: t).getLast? = some 125 ∨ (c :: t).getLast? = some 93) :
    stripFences (c :: t) = c :: t := by
  have hjson : pyS "```json" = 96 :: 96 :: 96 :: 106 :: 115 :: 111 :: 110 :: [] := by decide
  have hfence : pyS "```" = 96 :: 96 :: 96 :: [] := by decide
  have hs1 : pyStartsWith (c :: t) (pyS "```json") = false := by
    rw [hjson]
    show (c == 96 && _) = false
    rcases hc with rfl | rfl <;> rfl
  have hs2 : pyStartsWith (c :: t) (pyS "```") = false := by
    rw [hfence]
    show (c == 96 && _) = false
    rcases hc with rfl | rfl <;> rfl
  have hrev : ∃ d r, (c :: t).reverse = d :: r ∧ (d = 125 ∨ d = 93) := by
    cases hr : (c :: t).reverse with
    | nil => exact absurd (congrArg List.length hr) (by simp)
    | cons d r =>
      refine ⟨d, r, rfl, ?_⟩
      have : (c :: t).getLast? = some d := by rw [← List.head?_reverse, hr]; rfl
      rcases hl with h | h <;> rw [this] at h <;> [left; right] <;> exact Option.some_inj.mp h
  have he : pyEndsWith (c :: t) (pyS "```") = false := by
    obtain ⟨d, r, hr, hd⟩ := hrev
    unfold pyEndsWith
    rw [hfence, hr]
    show (d == 96 && _) = false
    rcases hd with rfl | rfl <;> rfl
  simp [stripFences, hs1, hs2, he]

/-! ## Structural facts about `parse_glm` -/

theorem json_loads_nil : json_loads ([] : PyStr) = none := rfl

theorem isEmpty_false_of_json_loads {c : PyStr} {v : JValue} (h : json_loads c = some v) :
    c.isEmpty = false := by
  cases c with
  | nil => rw [json_loads_nil] at h; cases h
  | cons a t => rfl

theorem mem_parse_glm {txt : PyStr} {r : ParsedItem} (hr : r ∈ parse_glm txt) :
    ∃ x, processItem x = some r := by
  unfold parse_glm at hr
  split at hr
  · simp at hr
  · split at hr
    · simp at hr
    · split at hr
      · simp at hr
      · unfold parse_glm_records at hr
        obtain ⟨x, -, hx⟩ := List.mem_filterMap.mp hr
        exact ⟨x, hx⟩

theorem processItem_obj_def (kvs : List (PyStr × JValue)) :
    processItem (.obj kvs) =
      if (expectedKeys.all fun k => (dictKeys kvs).contains k) = true then
        match dictGet kvs unitNavKey, dictGet kvs cumNavKey with
        | some uv, some cv =>
          (match navCoerce uv, navCoerce cv with
           | some u, some c => some ⟨kvs, u, c⟩
           | _, _ => none)
        | _, _ => none
      else none := rfl

theorem processItem_eq_some {x : JValue} {r : ParsedItem} (h : processItem x = some r) :
    (∀ k ∈ expectedKeys, k ∈ dictKeys r.fields)
    ∧ (∃ uv, dictGet r.fields unitNavKey = some uv ∧ navCoerce uv = some r.unitNav)
    ∧ (∃ cv, dictGet r.fields cumNavKey = some cv ∧ navCoerce cv = some r.cumNav) := by
  cases x with
  | obj kvs =>
    cases hk : expectedKeys.all (fun k => (dictKeys kvs).contains k) with
    | false =>
      rw [processItem_obj_def, hk] at h
      simp at h
    | true =>
      rw [processItem_obj_def, hk, if_pos rfl] at h
      rcases hu : dictGet kvs unitNavKey with _ | uv <;>
        rcases hcv : dictGet kvs cumNavKey with _ | cv <;> rw [hu, hcv] at h
      · exact Option.noConfusion h
      · exact Option.noConfusion h
      · exact Option.noConfusion h
      · have h2 : (match navCoerce uv, navCoerce cv with
            | some u, some c => some (ParsedItem.mk kvs u c)
            | _, _ => none) = some r := h
        rcases hnu : navCoerce uv with _ | u <;>
          rcases hnc : navCoerce cv with _ | cNav <;> rw [hnu, hnc] at h2
        · exact Option.noConfusion h2
        · exact Option.noConfusion h2
        · exact Option.noConfusion h2
        · obtain rfl : ParsedItem.mk kvs u cNav = r := Option.some_inj.mp h2
          refine ⟨?_, ⟨uv, hu, hnu⟩, ⟨cv, hcv, hnc⟩⟩
          intro k hkm
          have := List.all_eq_true.mp hk k hkm
          simpa using this
  | null => simp [processItem] at h
  | bool b => simp [processItem] at h
  | num v => simp [processItem] at h
  | str s => simp [processItem] at h
  | arr xs => simp [processItem] at h

theorem parse_glm_of_decoded {txt c : PyStr} {data : JValue}
    (hct : cleanedText txt = some c) (hjl : json_loads c = some data) :
    parse_glm txt = (itemsToProcess data).filterMap processItem := by
  have hne := isEmpty_false_of_json_loads hjl
  unfold parse_glm
  rw [hct]
  simp only [hne, hjl, Bool.false_eq_true, if_false, parse_glm_records]

/-! ## Claim C1 -/

/-- C1, counterexample: on a response whose single candidate carries a JSON
`null` in `单位净值`, `parse_glm` returns that record with a `None` NAV
rather than rejecting it or producing a number, so not every NAV field of a
returned record is a number. -/
theorem parse_glm_null_nav_counterexample :
    (parse_glm c1CexInput).map ParsedItem.unitNav = [none]
    ∧ ¬ (∀ r ∈ parse_glm c1CexInput, ∃ u : PyNum, r.unitNav = some u) := by
  have hm : (parse_glm c1CexInput).map ParsedItem.unitNav = [none] := by decide!
  refine ⟨hm, fun h => ?_⟩
  rcases hx : parse_glm c1CexInput with _ | ⟨r, rest⟩
  · rw [hx] at hm; simp at hm
  · obtain ⟨u, hu⟩ := h r (by rw [hx]; exact List.mem_cons_self r rest)
    rw [hx] at hm
    simp only [List.map_cons, List.cons.injEq] at hm
    rw [hm.1] at hu
    cases hu

/-- C1 (amended): every record returned by `parse_glm` has all five expected
keys present, and each NAV field is exactly the coercion of the record's
original value — a JSON `null` passes through as `None`, and any other value
is a number obtained after stripping commas; a candidate whose non-null NAV
value does not coerce is rejected individually (the batch is a per-candidate
`filterMap`), not as a whole. -/
theorem parse_glm_record_invariant :
    (∀ txt r, r ∈ parse_glm txt →
      (∀ k ∈ expectedKeys, k ∈ dictKeys r.fields)
      ∧ (∃ uv, dictGet r.fields unitNavKey = some uv ∧ navCoerce uv = some r.unitNav)
      ∧ (∃ cv, dictGet r.fields cumNavKey = some cv ∧ navCoerce cv = some r.cumNav))
    ∧ (∀ txt c data, cleanedText txt = some c → json_loads c = some data →
        parse_glm txt = (itemsToProcess data).filterMap processItem) := by
  constructor
  · intro txt r hr
    obtain ⟨x, hx⟩ := mem_parse_glm hr
    exact processItem_eq_some hx
  · intro txt c data hct hjl
    exact parse_glm_of_decoded hct hjl

/-- Witness for C1 (amended), at the record extracted from the spec's example
response. -/
theorem parse_glm_record_invariant_witness :
    (∀ k ∈ expectedKeys, k ∈ dictKeys c2Record.fields)
    ∧ (∃ uv, dictGet c2Record.fields unitNavKey = some uv ∧ navCoerce uv = some c2Record.unitNav)
    ∧ (∃ cv, dictGet c2Record.fields cumNavKey = some cv ∧ navCoerce cv = some c2Record.cumNav) :=
  parse_glm_record_invariant.1 c2Input c2Record (by
    have h : parse_glm c2Input = [c2Record] := by decide!
    rw [h]
    exact List.mem_singleton.mpr rfl)

/-! ## Claim C2 -/

/-- C2: for any response text made of prose containing neither `{` nor `[`
followed by a complete JSON array/object text, `parse_glm` returns exactly
the records extracted from the decoded JSON value, whatever the prose; and on
the spec's example it returns exactly one record with `单位净值 = 1000.50`. -/
theorem parse_glm_prose_recovery :
    (∀ (p j : PyStr) (v : JValue),
      (∀ a ∈ p, a ≠ 123 ∧ a ≠ 91) →
      (j.head? = some 123 ∨ j.head? = some 91) →
      (j.getLast? = some 125 ∨ j.getLast? = some 93) →
      json_loads j = some v →
      parse_glm (p ++ j) = parse_glm_records v)
    ∧ (parse_glm c2Input).length = 1
    ∧ (parse_glm c2Input).map ParsedItem.unitNav = [some (.finite (2001 / 2))] := by
  refine ⟨?_, by decide!, by decide!⟩
  intro p j v hp hhd hlast hjson
  obtain ⟨c, t, rfl⟩ : ∃ c t, j = c :: t := by
    cases j with
    | nil => rcases hhd with h | h <;> cases h
    | cons c t => exact ⟨c, t, rfl⟩
  have hc : c = 123 ∨ c = 91 := by
    rcases hhd with h | h <;> [left; right] <;> exact Option.some_inj.mp h
  have hlast2 : (p ++ c :: t).getLast? = (c :: t).getLast? := by
    rw [List.getLast?_append]
    rcases hgl : (c :: t).getLast? with _ | d
    · exact absurd hgl (by simp)
    · rfl
  have hsr : pyStripRight (p ++ c :: t) = p ++ c :: t := by
    apply pyStripRight_eq_self
    rw [hlast2]
    rcases hlast with h | h <;> rw [h] <;> decide
  have hcp : isPySpace c = false := by rcases hc with rfl | rfl <;> decide
  have hsl : pyStrip (p ++ c :: t) = pyStripLeft p ++ c :: t := by
    unfold pyStrip
    rw [hsr]
    exact pyStripLeft_append p t c hcp
  have hq : ∀ a ∈ pyStripLeft p, a ≠ 123 ∧ a ≠ 91 := fun a ha =>
    hp a ((List.dropWhile_sublist _).mem ha)
  have hidx : jsonStartIndex (pyStripLeft p ++ c :: t) = some (pyStripLeft p).length :=
    jsonStartIndex_append _ t c hq hc
  have hdrop : (pyStripLeft p ++ c :: t).drop (pyStripLeft p).length = c :: t :=
    List.drop_left _ _
  have hfence : stripFences (c :: t) = c :: t := stripFences_eq_self c t hc hlast
  have hclean : cleanedText (p ++ c :: t) = some (c :: t) := by
    unfold cleanedText
    simp only [hsl, hidx, hdrop, hfence]
  rw [parse_glm_of_decoded hclean hjson]
  rfl

/-- Witness for C2, instantiating the universal part on the spec's example
prose and JSON. -/
theorem parse_glm_prose_recovery_witness :
    parse_glm (c2Prose ++ c2Json) = parse_glm_records c2Value :=
  parse_glm_prose_recovery.1 c2Prose c2Json c2Value (by decide) (by decide!) (by decide!)
    (by decide!)

/-! ## Claim C3 -/

/-- C3: `parse_glm` is a total function (by construction of the model — every
`except` arm of the source returns `[]`), and it returns the empty sequence
when the input has no `{` or `[` at all, when the cleaned text fails JSON
decoding, and when the decoded value is neither an array nor an object; in
particular `parse_glm "[]"` is empty. -/
theorem parse_glm_failure_empty :
    (∀ txt : PyStr, (∀ a ∈ txt, a ≠ 123 ∧ a ≠ 91) → parse_glm txt = [])
    ∧ (∀ txt c, cleanedText txt = some c → json_loads c = none → parse_glm txt = [])
    ∧ (∀ txt c data, cleanedText txt = some c → json_loads c = some data →
        (∀ xs, data ≠ JValue.arr xs) → (∀ kvs, data ≠ JValue.obj kvs) →
        parse_glm txt = [])
    ∧ parse_glm (pyS "[]") = [] := by
  refine ⟨?_, ?_, ?_, by decide⟩
  · intro txt h
    have hn : jsonStartIndex (pyStrip txt) = none :=
      jsonStartIndex_eq_none fun a ha => h a (mem_pyStrip ha)
    unfold parse_glm cleanedText
    simp only [hn]
  · intro txt c hct hjl
    unfold parse_glm
    rw [hct]
    simp [hjl]
  · intro txt c data hct hjl harr hobj
    rw [parse_glm_of_decoded hct hjl]
    cases data with
    | arr xs => exact absurd rfl (harr xs)
    | obj kvs => exact absurd rfl (hobj kvs)
    | null => rfl
    | bool b => rfl
    | num v => rfl
    | str s => rfl

/-- Witness for C3, on an input with no JSON start character. -/
theorem parse_glm_failure_empty_witness :
    parse_glm (pyS "no json here") = [] :=
  parse_glm_failure_empty.1 (pyS "no json here") (by decide)

/-! ## Claim C4 -/

/-- C4: when the cleaned response decodes to a JSON array, `parse_glm` is the
per-element `filterMap` of the candidate validator, so malformed entries
(non-objects, or objects missing one of the five keys) are skipped one by one
while the valid records survive in encounter order; on the spec's
one-valid-one-incomplete example exactly the valid record is returned. -/
theorem parse_glm_per_record_tolerance :
    (∀ txt c xs, cleanedText txt = some c → json_loads c = some (.arr xs) →
      parse_glm txt = xs.filterMap processItem)
    ∧ (∀ kvs, ¬ (∀ k ∈ expectedKeys, k ∈ dictKeys kvs) → processItem (.obj kvs) = none)
    ∧ (∀ x : JValue, (∀ kvs, x ≠ .obj kvs) → processItem x = none)
    ∧ parse_glm c4Input = [c4Record] := by
  refine ⟨?_, ?_, ?_, by decide!⟩
  · intro txt c xs hct hjl
    rw [parse_glm_of_decoded hct hjl]
    rfl
  · intro kvs hk
    have hk2 : expectedKeys.all (fun k => (dictKeys kvs).contains k) = false := by
      cases h : expectedKeys.all (fun k => (dictKeys kvs).contains k) with
      | false => rfl
      | true =>
        exfalso
        apply hk
        intro k hkm
        have := List.all_eq_true.mp h k hkm
        simpa using this
    rw [processItem_obj_def, hk2]
    simp
  · intro x hx
    cases x with
    | obj kvs => exact absurd rfl (hx kvs)
    | null => rfl
    | bool b => rfl
    | num v => rfl
    | str s => rfl
    | arr xs => rfl

/-- Witness for C4, instantiating the array case on the spec's
one-valid-one-incomplete example. -/
theorem parse_glm_per_record_tolerance_witness :
    parse_glm c4Input = c4Elems.filterMap processItem :=
  parse_glm_per_record_tolerance.1 c4Input c4Input c4Elems (by decide!)
    (by decide!)

/-! ## Claim C5 -/

/-- C5 (code evaluation): the attachment text fallback always returns the
UTF-8 `ignore` decoding, whatever the GBK decoder would compute — the
`except UnicodeDecodeError` branch (line 408-409) and the sentinel branch
(line 410-411) are unreachable, because `bytes.decode("utf-8", "ignore")`
cannot raise.  On the GBK-encoded payload `b"\xd6\xd0"` (GBK for `中`) the
text handed downstream is the empty string, not a GBK decoding. -/
theorem attachTextFallback_always_utf8 :
    (∀ (gbk : Bytes → PyStr) (blob : Bytes),
      attachTextFallback gbk blob = utf8DecodeIgnore blob)
    ∧ (∀ gbk : Bytes → PyStr, attachTextFallback gbk [0xD6, 0xD0] = []) := by
  refine ⟨fun gbk blob => rfl, fun gbk => rfl⟩

/-! ## Claim C6 -/

theorem isPySpace_digit {c : Nat} (h1 : 48 ≤ c) (h2 : c ≤ 57) : isPySpace c = false := by
  simp only [isPySpace, decide_eq_false_iff_not]
  omega

theorem parse4Digits_fourDigits (y : Nat) (hy : y ≤ 9999) (r : PyStr) :
    parse4Digits (fourDigits y ++ r) = some (y, r) := by
  simp only [fourDigits, List.cons_append, List.nil_append]
  simp only [parse4Digits, isDigit, decide_eq_true_eq]
  rw [if_pos (by omega)]
  simp only [Option.some.injEq, Prod.mk.injEq]
  exact ⟨by omega, trivial⟩

theorem matchMonth_canonical (mo : Nat) (h1 : 1 ≤ mo) (h2 : mo ≤ 12) (r : PyStr) :
    matchMonth (twoDigits mo ++ r) = some (mo, r) := by
  simp only [twoDigits, List.cons_append, List.nil_append]
  simp only [matchMonth, isDigit, decide_eq_true_eq]
  split_ifs <;> simp_all <;> omega

theorem matchDay_canonical (d : Nat) (h1 : 1 ≤ d) (h2 : d ≤ 31) (r : PyStr) :
    matchDay (twoDigits d ++ r) = some (d, r) := by
  simp only [twoDigits, List.cons_append, List.nil_append]
  simp only [matchDay, isDigit, decide_eq_true_eq]
  split_ifs <;> simp_all <;> omega

theorem matchHour_canonical (h : Nat) (h2 : h ≤ 23) (r : PyStr) :
    matchHour (twoDigits h ++ r) = some (h, r) := by
  simp only [twoDigits, List.cons_append, List.nil_append]
  simp only [matchHour, isDigit, decide_eq_true_eq]
  split_ifs <;> simp_all <;> omega

theorem matchMinute_canonical (m : Nat) (h2 : m ≤ 59) (r : PyStr) :
    matchMinute (twoDigits m ++ r) = some (m, r) := by
  simp only [twoDigits, List.cons_append, List.nil_append]
  simp only [matchMinute, isDigit, decide_eq_true_eq]
  split_ifs <;> simp_all <;> omega

theorem matchSec_canonical (s : Nat) (h2 : s ≤ 59) (r : PyStr) :
    matchSec (twoDigits s ++ r) = some (s, r) := by
  simp only [twoDigits, List.cons_append, List.nil_append]
  simp only [matchSec, isDigit, decide_eq_true_eq]
  split_ifs <;> simp_all <;> omega

theorem expectCp_cons_self (c : Nat) (r : PyStr) : expectCp c (c :: r) = some r := by
  simp [expectCp]

theorem daysInMonth_le_31 (y m : Nat) : daysInMonth y m ≤ 31 := by
  unfold daysInMonth
  split_ifs <;> simp_all

theorem dropWhile_digit_head {c : Nat} (h1 : 48 ≤ c) (h2 : c ≤ 57) (t : PyStr) :
    List.dropWhile isPySpace (c :: t) = c :: t := by
  rw [List.dropWhile_cons, isPySpace_digit h1 h2]
  simp

theorem matchWs1_space_digit {c : Nat} (h1 : 48 ≤ c) (h2 : c ≤ 57) (t : PyStr) :
    matchWs1 (32 :: c :: t) = some (c :: t) := by
  simp only [matchWs1]
  rw [if_pos (by decide)]
  rw [dropWhile_digit_head h1 h2]

theorem strptime_of_save (t : PyDateTime) (hv : ValidDateTime t) :
    strptimeYmdHms (save_current_run_datetime t) = some (truncateToSecond t) := by
  obtain ⟨hy1, hy2, hm1, hm2, hd1, hd2, hh, hmi, hs⟩ := hv
  unfold save_current_run_datetime strptimeYmdHms
  rw [parse4Digits_fourDigits t.year (by omega)]
  rw [Option.some_bind]
  rw [expectCp_cons_self]
  rw [Option.some_bind]
  rw [matchMonth_canonical t.month hm1 hm2]
  rw [Option.some_bind]
  rw [expectCp_cons_self]
  rw [Option.some_bind]
  rw [matchDay_canonical t.day hd1 (le_trans hd2 (daysInMonth_le_31 t.year t.month))]
  rw [Option.some_bind]
  rw [show (twoDigits t.hour ++ 58 :: (twoDigits t.minute ++ 58 :: twoDigits t.second))
      = (48 + t.hour / 10) :: (48 + t.hour % 10) ::
        (58 :: (twoDigits t.minute ++ 58 :: twoDigits t.second)) from rfl]
  rw [matchWs1_space_digit (by omega) (by omega)]
  rw [Option.some_bind]
  rw [show ((48 + t.hour / 10) :: (48 + t.hour % 10) ::
        (58 :: (twoDigits t.minute ++ 58 :: twoDigits t.second)))
      = twoDigits t.hour ++ 58 :: (twoDigits t.minute ++ 58 :: twoDigits t.second) from rfl]
  rw [matchHour_canonical t.hour hh]
  rw [Option.some_bind]
  rw [expectCp_cons_self]
  rw [Option.some_bind]
  rw [matchMinute_canonical t.minute hmi]
  rw [Option.some_bind]
  rw [expectCp_cons_self]
  rw [Option.some_bind]
  rw [show twoDigits t.second = twoDigits t.second ++ [] by simp]
  rw [matchSec_canonical t.second hs]
  rw [Option.some_bind]
  rw [if_pos ⟨rfl, by omega, hd2, hs⟩]
  rfl

theorem pyStrip_save (t : PyDateTime) (hv : ValidDateTime t) :
    pyStrip (save_current_run_datetime t) = save_current_run_datetime t := by
  have hlast : (save_current_run_datetime t).getLast? = some (48 + t.second % 10) := by
    unfold save_current_run_datetime
    rw [List.getLast?_append]
    rfl
  unfold pyStrip
  rw [pyStripRight_eq_self _ (by
    rw [hlast]
    simp only [Option.all_some, Bool.not_eq_true']
    exact isPySpace_digit (by omega) (by omega))]
  show List.dropWhile isPySpace ((48 + t.year / 1000) :: _) = _
  rw [List.dropWhile_cons, isPySpace_digit (by omega) (by omega)]
  simp only [Bool.false_eq_true, if_false]
  rfl

/-- C6: writing the watermark at a UTC instant and reading the file back
yields the same instant truncated to one-second precision; and contents that
do not parse in the fixed `%Y-%m-%d %H:%M:%S` format — an empty file, free
text, or an out-of-range date — read back as `none` (the `ValueError` is
caught), not as an exception. -/
theorem watermark_round_trip :
    (∀ t : PyDateTime, ValidDateTime t →
      get_last_run_datetime (save_current_run_datetime t) = some (truncateToSecond t))
    ∧ get_last_run_datetime (pyS "") = none
    ∧ get_last_run_datetime (pyS "not a timestamp") = none
    ∧ get_last_run_datetime (pyS "2025-02-30 10:00:00") = none := by
  refine ⟨?_, by decide!, by decide!, by decide!⟩
  intro t hv
  unfold get_last_run_datetime
  rw [pyStrip_save t hv]
  rw [if_neg (by
    intro h
    have := congrArg List.length h
    simp [save_current_run_datetime, fourDigits, twoDigits] at this)]
  exact strptime_of_save t hv

/-- Witness for C6, at a concrete instant with microseconds. -/
theorem watermark_round_trip_witness :
    get_last_run_datetime (save_current_run_datetime ⟨2025, 5, 1, 3, 4, 5, 123456⟩)
      = some (truncateToSecond ⟨2025, 5, 1, 3, 4, 5, 123456⟩) :=
  watermark_round_trip.1 ⟨2025, 5, 1, 3, 4, 5, 123456⟩ (by decide)

/-! ## Claim C7 -/

/-- C7, counterexample: a run that completes its main loop with one collected
row whose `日期` cell is a JSON list terminates without the watermark save —
the `TypeError` from the unguarded `df.drop_duplicates` (lines 486-487)
propagates and line 516 is never reached.  Such a row is reachable: on
`c7CexInput`, `parse_glm` returns exactly one record whose `日期` value is
the JSON array `["x"]`. -/
theorem run_processing_unhashable_counterexample :
    run_processing (.completed 1 1 [badRow]) true = []
    ∧ RunStep.saveWatermark ∉ run_processing (.completed 1 1 [badRow]) true
    ∧ (parse_glm c7CexInput).map (fun r => dictGet r.fields (pyS "日期"))
        = [some (.arr [.str (pyS "x")])] := by
  refine ⟨by decide!, ?_, by decide!⟩
  have h : run_processing (.completed 1 1 [badRow]) true = [] := by decide!
  rw [h]
  simp

/-- C7 (amended): on every terminating path of a processing run —
connectivity failure, unexpected error in the main loop, zero messages, zero
rows, or a normal run with rows (whether the Excel write succeeds or falls
back) — the watermark save is executed, exactly once, as the last effect
before the run ends, *except* when the post-loop aggregation itself raises:
the unguarded `pd.DataFrame`/`df.drop_duplicates` of lines 486-487 ends the
run without a save when some collected row holds an unhashable parsed value.
Whenever every collected row's cells are hashable, every path saves. -/
theorem run_processing_saves_unless_unhashable :
    ∀ (outcome : MainLoopOutcome) (excelWriteOk : Bool),
      (∀ found count rows, outcome = .completed found count rows →
        rows.all rowHashable = true) →
      RunStep.saveWatermark ∈ run_processing outcome excelWriteOk
      ∧ (run_processing outcome excelWriteOk).getLast? = some RunStep.saveWatermark
      ∧ (run_processing outcome excelWriteOk).count RunStep.saveWatermark = 1 := by
  intro o w hh
  cases o with
  | imapConnectionError => refine ⟨by simp [run_processing], by rfl, by rfl⟩
  | unexpectedError => refine ⟨by simp [run_processing], by rfl, by rfl⟩
  | completed found count rows =>
    have hr := hh found count rows rfl
    simp only [run_processing, hr]
    split_ifs <;> exact ⟨by simp, rfl, rfl⟩

/-- Witness for C7 (amended): a completed run with one hashable row saves the
watermark last, exactly once. -/
theorem run_processing_saves_unless_unhashable_witness :
    RunStep.saveWatermark ∈ run_processing (.completed 1 1 [row0]) true
    ∧ (run_processing (.completed 1 1 [row0]) true).getLast? = some RunStep.saveWatermark
    ∧ (run_processing (.completed 1 1 [row0]) true).count RunStep.saveWatermark = 1 :=
  run_processing_saves_unless_unhashable (.completed 1 1 [row0]) true (by
    intro found count rows h
    injection h with h1 h2 h3
    subst h3
    decide)

/-! ## Claim C8 -/

theorem mem_dropDupAux {α : Type} [DecidableEq α] (seen l : List α) (x : α) :
    x ∈ dropDupAux seen l ↔ x ∈ l ∧ x ∉ seen := by
  induction l generalizing seen with
  | nil => simp [dropDupAux]
  | cons r rs ih =>
    unfold dropDupAux
    by_cases hr : r ∈ seen
    · rw [if_pos hr, ih]
      constructor
      · exact fun ⟨h1, h2⟩ => ⟨List.mem_cons_of_mem r h1, h2⟩
      · rintro ⟨h1, h2⟩
        rcases List.mem_cons.mp h1 with rfl | h1
        · exact absurd hr h2
        · exact ⟨h1, h2⟩
    · rw [if_neg hr]
      constructor
      · intro hx
        rcases List.mem_cons.mp hx with rfl | hx2
        · exact ⟨List.mem_cons_self x rs, hr⟩
        · have h3 := (ih (r :: seen)).mp hx2
          exact ⟨List.mem_cons_of_mem r h3.1, fun hs => h3.2 (List.mem_cons_of_mem r hs)⟩
      · rintro ⟨h1, h2⟩
        rcases List.mem_cons.mp h1 with rfl | h1
        · exact List.mem_cons_self x _
        · by_cases hxr : x = r
          · subst hxr; exact List.mem_cons_self x _
          · refine List.mem_cons_of_mem r ((ih (r :: seen)).mpr ⟨h1, ?_⟩)
            intro hx
            rcases List.mem_cons.mp hx with h | h
            · exact hxr h
            · exact h2 h

theorem nodup_dropDupAux {α : Type} [DecidableEq α] (seen l : List α) :
    (dropDupAux seen l).Nodup := by
  induction l generalizing seen with
  | nil => simp [dropDupAux]
  | cons r rs ih =>
    unfold dropDupAux
    by_cases hr : r ∈ seen
    · rw [if_pos hr]; exact ih seen
    · rw [if_neg hr]
      refine List.Nodup.cons ?_ (ih (r :: seen))
      intro hmem
      have := (mem_dropDupAux (r :: seen) rs r).mp hmem
      exact this.2 (List.mem_cons_self r seen)

theorem sublist_dropDupAux {α : Type} [DecidableEq α] (seen l : List α) :
    (dropDupAux seen l).Sublist l := by
  induction l generalizing seen with
  | nil => simp [dropDupAux]
  | cons r rs ih =>
    unfold dropDupAux
    by_cases hr : r ∈ seen
    · rw [if_pos hr]; exact (ih seen).cons r
    · rw [if_neg hr]; exact (ih (r :: seen)).cons₂ r

/-- C8: deduplication of output rows is by full-row equality over all eight
columns, keeping the first occurrence in order: the result has no duplicate
rows, contains exactly the rows of the input, and is an in-order
subsequence; two rows identical in all eight fields collapse to the first
one, while two rows differing only in `单位净值` are both retained; and the
first collected row always stays first. -/
theorem drop_duplicates_spec :
    (∀ {α : Type} [DecidableEq α] (l : List α),
      (drop_duplicates l).Nodup
      ∧ (∀ x, x ∈ drop_duplicates l ↔ x ∈ l)
      ∧ (drop_duplicates l).Sublist l)
    ∧ (∀ r : OutputRow, drop_duplicates [r, r] = [r])
    ∧ (∀ (r : OutputRow) (v : Option PyNum), v ≠ r.unitNav →
        drop_duplicates [r, ⟨r.riqi, r.fundName, r.fundCode, v, r.cumNav,
          r.sourceSubject, r.senderAddress, r.senderDisplay⟩]
          = [r, ⟨r.riqi, r.fundName, r.fundCode, v, r.cumNav,
              r.sourceSubject, r.senderAddress, r.senderDisplay⟩])
    ∧ (∀ {α : Type} [DecidableEq α] (r : α) (rs : List α),
        (drop_duplicates (r :: rs)).head? = some r) := by
  refine ⟨?_, ?_, ?_, ?_⟩
  · intro α _ l
    refine ⟨nodup_dropDupAux [] l, ?_, sublist_dropDupAux [] l⟩
    intro x
    rw [drop_duplicates, mem_dropDupAux]
    simp
  · intro r
    simp [drop_duplicates, dropDupAux]
  · intro r v hv
    have hne : (⟨r.riqi, r.fundName, r.fundCode, v, r.cumNav,
        r.sourceSubject, r.senderAddress, r.senderDisplay⟩ : OutputRow) ≠ r := by
      rcases r with ⟨a, b, c, u, cn, s1, s2, s3⟩
      intro he
      injection he with e1 e2 e3 e4
      exact hv e4
    simp [drop_duplicates, dropDupAux, hne]
  · intro α _ r rs
    rw [drop_duplicates]
    unfold dropDupAux
    rw [if_neg (List.not_mem_nil r)]
    rfl

/-- Witness for C8, on two concrete rows differing only in `单位净值`. -/
theorem drop_duplicates_spec_witness :
    drop_duplicates [row0, row1] = [row0, row1] :=
  drop_duplicates_spec.2.2.1 row0 none (by decide)

/-! ## Claims C9 and C10 -/

/-- C9: in incremental mode, among the messages the calendar-day `SINCE`
search admits, a fetched message with an `INTERNALDATE` is processed exactly
when that instant is strictly after the watermark: at or before the
watermark it is excluded, strictly after it is included — even though the
day-granular server search admitted it. -/
theorem fetch_mail_incremental_filter :
    ∀ (lastRun : Nat) (msgs : List FetchedMsg) (m : FetchedMsg) (d : Nat),
      m ∈ msgs → m.hasRfc822 = true → m.internalDate = some d →
      dayOfTimestamp lastRun ≤ m.serverDay →
      (m ∈ fetch_mail_incremental lastRun msgs ↔ lastRun < d) := by
  intro lastRun msgs m d hm hr hd hday
  unfold fetch_mail_incremental serverSinceSearch
  rw [List.mem_filter, List.mem_filter]
  unfold clientKeep
  rw [hd, hr]
  simp [hm, hday]

/-- Witness for C9: a message received one second after the watermark, on the
watermark's own day, is included. -/
theorem fetch_mail_incremental_filter_witness :
    (⟨1, 1, some 100001, true⟩ : FetchedMsg)
      ∈ fetch_mail_incremental 100000 [⟨1, 1, some 100001, true⟩] :=
  (fetch_mail_incremental_filter 100000 [⟨1, 1, some 100001, true⟩] ⟨1, 1, some 100001, true⟩
    100001 (List.mem_singleton.mpr rfl) rfl rfl (by decide)).mpr (by decide)

/-- C10: in incremental mode, a fetched message for which the server returned
no `INTERNALDATE` bypasses the timestamp comparison entirely and is yielded
downstream (only a warning is logged), rather than being excluded. -/
theorem fetch_mail_missing_internaldate_included :
    ∀ (lastRun : Nat) (msgs : List FetchedMsg) (m : FetchedMsg),
      m ∈ msgs → m.hasRfc822 = true → m.internalDate = none →
      dayOfTimestamp lastRun ≤ m.serverDay →
      m ∈ fetch_mail_incremental lastRun msgs := by
  intro lastRun msgs m hm hr hd hday
  unfold fetch_mail_incremental serverSinceSearch
  rw [List.mem_filter, List.mem_filter]
  unfold clientKeep
  rw [hd, hr]
  simp [hm, hday]

/-- Witness for C10: a message without an `INTERNALDATE`, on a day the search
admits, is processed. -/
theorem fetch_mail_missing_internaldate_included_witness :
    (⟨2, 5, none, true⟩ : FetchedMsg)
      ∈ fetch_mail_incremental 100000 [⟨2, 5, none, true⟩] :=
  fetch_mail_missing_internaldate_included 100000 [⟨2, 5, none, true⟩] ⟨2, 5, none, true⟩
    (List.mem_singleton.mpr rfl) rfl rfl (by decide)

end EmailPush
